import Mathlib

/-!
Shallow embedding of the ramutextiles storefront (TypeScript + SQL sources)
and proofs about its cart store, image pipeline, auth admin check, the
in-memory image cache and the `update_product_analytics` SQL function.

Conventions: TypeScript `number` used as an integer count is modelled as `ℤ`,
money as `ℚ`; nullable / optional values as `Option`; JavaScript `Map`
(insertion-ordered) as an association list.
-/

/-- A product media entry (`product_media` row / `product.media` element):
a URL plus the `is_primary` flag. -/
structure Media where
  url : String
  is_primary : Bool
deriving Repr, DecidableEq

/-- The slice of a product that `cartStore.ts` reads: `id`, `name`, `price`
and the `media` array. -/
structure Product where
  id : String
  name : String
  price : ℚ
  media : List Media
deriving Repr, DecidableEq

/-- `CartItem` from `src/stores/cartStore.ts` (variant fields omitted: the
store never writes them). -/
structure CartItem where
  id : String
  product_id : String
  name : String
  price : ℚ
  quantity : ℤ
  image_url : Option String
deriving Repr, DecidableEq

/-- The local cart state (`items` array), in order. -/
abbrev Cart := List CartItem

/-- Local-state effect of `removeItem` in `cartStore.ts`:
`items.filter(item => item.product_id !== productId)`. -/
def removeItem (items : Cart) (productId : String) : Cart :=
  items.filter (fun item => item.product_id != productId)

/-- Local-state effect of `updateQuantity` in `cartStore.ts`: quantity ≤ 0
delegates to `removeItem`; otherwise maps over the items replacing the
quantity of those whose `product_id` matches. -/
def updateQuantity (items : Cart) (productId : String) (quantity : ℤ) : Cart :=
  if quantity ≤ 0 then
    removeItem items productId
  else
    items.map (fun item =>
      if item.product_id = productId then { item with quantity := quantity } else item)

/-- The new line `addItem` builds when the product is not yet in the cart:
id is the locally generated `productId-timestamp`, price is snapshotted from
the product, image is `product.media?.[0]?.url`. -/
def newCartItem (product : Product) (quantity : ℤ) (now : ℕ) : CartItem :=
  { id := product.id ++ "-" ++ toString now
    product_id := product.id
    name := product.name
    price := product.price
    quantity := quantity
    image_url := product.media.head?.map (fun m => m.url) }

/-- Local-state effect of `addItem` in `cartStore.ts`: if a line with the
product's id exists, delegate to `updateQuantity` with the summed quantity;
otherwise append a freshly built line. -/
def addItem (items : Cart) (product : Product) (quantity : ℤ) (now : ℕ) : Cart :=
  match items.find? (fun item => item.product_id == product.id) with
  | some existingItem => updateQuantity items product.id (existingItem.quantity + quantity)
  | none => items ++ [newCartItem product quantity now]

/-- Local-state effect of `clearCart` in `cartStore.ts`: `set({ items: [] })`. -/
def clearCart (_items : Cart) : Cart := []

/-- `getTotalItems` from `cartStore.ts`: reduce over quantities. -/
def getTotalItems (items : Cart) : ℤ :=
  items.foldl (fun total item => total + item.quantity) 0

/-- `getTotalPrice` from `cartStore.ts`: reduce over price × quantity. -/
def getTotalPrice (items : Cart) : ℚ :=
  items.foldl (fun total item => total + item.price * item.quantity) 0

/-- A `cart_items` row as `loadCart` selects it, joined with the product
name and the product's media list. -/
structure ServerCartItem where
  id : String
  product_id : String
  quantity : ℤ
  unit_price : ℚ
  product_name : String
  product_media : List Media
deriving Repr, DecidableEq

/-- The conversion `loadCart` applies to each server row: price from
`unit_price`, image from the first `is_primary` media entry. -/
def serverItemToCartItem (item : ServerCartItem) : CartItem :=
  { id := item.id
    product_id := item.product_id
    name := item.product_name
    price := item.unit_price
    quantity := item.quantity
    image_url := (item.product_media.find? (fun m => m.is_primary)).map (fun m => m.url) }

/-- Local-state effect of `loadCart` in `cartStore.ts` for a signed-in user:
when the server query returns a cart row (`cart?.cart_items` truthy, arrays
always are), the items are replaced wholesale by the mapped rows; when no
cart row exists the local items are left as they were. -/
def loadCart (items : Cart) (serverCart : Option (List ServerCartItem)) : Cart :=
  match serverCart with
  | some serverItems => serverItems.map serverItemToCartItem
  | none => items

/- ## Helper lemmas about cart totals -/

theorem foldl_add_init (f : CartItem → ℤ) (l : Cart) (init : ℤ) :
    l.foldl (fun t it => t + f it) init = init + (l.map f).sum := by
  induction l generalizing init with
  | nil => simp
  | cons x xs ih => simp [List.foldl_cons, ih, add_assoc]

theorem foldl_add_init_q (f : CartItem → ℚ) (l : Cart) (init : ℚ) :
    l.foldl (fun t it => t + f it) init = init + (l.map f).sum := by
  induction l generalizing init with
  | nil => simp
  | cons x xs ih => simp [List.foldl_cons, ih, add_assoc]

theorem getTotalItems_eq_sum (items : Cart) :
    getTotalItems items = (items.map (fun it => it.quantity)).sum := by
  simpa using foldl_add_init (fun it => it.quantity) items 0

theorem getTotalPrice_eq_sum (items : Cart) :
    getTotalPrice items = (items.map (fun it => it.price * (it.quantity : ℚ))).sum := by
  simpa using foldl_add_init_q (fun it => it.price * (it.quantity : ℚ)) items 0

/- ## Helper lemmas about find? and map -/

theorem find?_append_middle {α : Type} (pr : α → Bool) (l₁ l₂ : List α) (e : α)
    (h₁ : ∀ x ∈ l₁, pr x = false) (he : pr e = true) :
    (l₁ ++ e :: l₂).find? pr = some e := by
  induction l₁ with
  | nil => simp [List.find?_cons, he]
  | cons x xs ih =>
    have hx : pr x = false := h₁ x (by simp)
    simp only [List.cons_append, List.find?_cons, hx]
    exact ih (fun y hy => h₁ y (by simp [hy]))

theorem map_update_id (l : Cart) (productId : String) (q : ℤ)
    (h : ∀ it ∈ l, it.product_id ≠ productId) :
    l.map (fun item =>
      if item.product_id = productId then { item with quantity := q } else item) = l := by
  induction l with
  | nil => rfl
  | cons x xs ih =>
    have hx : x.product_id ≠ productId := h x (by simp)
    simp only [List.map_cons, if_neg hx, List.cons.injEq, true_and]
    exact ih (fun y hy => h y (by simp [hy]))

/- ## C4 and C5 -/

/-- C4: `updateQuantity(id, q)` with q ≤ 0 produces exactly the local cart
state of `removeItem(id)`; with q ≥ 1 it replaces the quantity of the
matching line(s) with q and changes nothing else (stated positionally: the
i-th result line is the i-th input line, with only the quantity of matching
lines replaced). -/
theorem updateQuantity_removes_or_replaces (items : Cart) (productId : String) (q : ℤ) :
    (q ≤ 0 → updateQuantity items productId q = removeItem items productId) ∧
    (1 ≤ q → ∀ i : ℕ,
      (updateQuantity items productId q)[i]? = (items[i]?).map (fun it =>
        if it.product_id = productId then { it with quantity := q } else it)) := by
  constructor
  · intro hq
    simp [updateQuantity, hq]
  · intro hq i
    have hq' : ¬ q ≤ 0 := by omega
    simp [updateQuantity, hq', List.getElem?_map]

/-- Witness for C4 at a concrete cart: quantity 0 removes the line and
quantity 2 replaces the quantity in place. -/
theorem updateQuantity_removes_or_replaces_witness :
    (updateQuantity [⟨"a-1", "a", "A", 10, 3, none⟩] "a" 0 = removeItem [⟨"a-1", "a", "A", 10, 3, none⟩] "a") ∧
    (updateQuantity [⟨"a-1", "a", "A", 10, 3, none⟩] "a" 2)[0]? =
      (([⟨"a-1", "a", "A", 10, 3, none⟩] : Cart)[0]?).map (fun it =>
        if it.product_id = "a" then { it with quantity := 2 } else it) := by
  exact ⟨(updateQuantity_removes_or_replaces [⟨"a-1", "a", "A", 10, 3, none⟩] "a" 0).1 (by decide),
    (updateQuantity_removes_or_replaces [⟨"a-1", "a", "A", 10, 3, none⟩] "a" 2).2 (by decide) 0⟩

/-- C5: for a signed-in user whose server cart row exists, `loadCart`
replaces the local items wholesale: the result does not depend on the prior
local state, has one line per server `cart_items` row, and each line takes
the row's `unit_price`, quantity and the primary media URL. -/
theorem loadCart_replaces_wholesale (localItems otherLocalItems : Cart)
    (serverItems : List ServerCartItem) :
    loadCart localItems (some serverItems) = loadCart otherLocalItems (some serverItems) ∧
    (loadCart localItems (some serverItems)).length = serverItems.length ∧
    (∀ i : ℕ, (loadCart localItems (some serverItems))[i]? = (serverItems[i]?).map (fun s =>
      { id := s.id
        product_id := s.product_id
        name := s.product_name
        price := s.unit_price
        quantity := s.quantity
        image_url := (s.product_media.find? (fun m => m.is_primary)).map (fun m => m.url) })) := by
  refine ⟨rfl, by simp [loadCart], ?_⟩
  intro i
  simp only [loadCart, List.getElem?_map]
  cases serverItems[i]? <;> simp [serverItemToCartItem]

/- ## Case analysis of addItem, as reusable lemmas -/

theorem addItem_absent_eq (items : Cart) (p : Product) (q : ℤ) (now : ℕ)
    (h : ∀ it ∈ items, it.product_id ≠ p.id) :
    addItem items p q now = items ++ [newCartItem p q now] := by
  have hfind : items.find? (fun item => item.product_id == p.id) = none := by
    rw [List.find?_eq_none]
    intro x hx
    simpa using h x hx
  simp [addItem, hfind]

theorem addItem_present_eq (items l₁ l₂ : Cart) (e : CartItem) (p : Product) (q : ℤ) (now : ℕ)
    (hitems : items = l₁ ++ e :: l₂) (he : e.product_id = p.id)
    (h₁ : ∀ it ∈ l₁, it.product_id ≠ p.id) (h₂ : ∀ it ∈ l₂, it.product_id ≠ p.id)
    (hq : 1 ≤ e.quantity + q) :
    addItem items p q now = l₁ ++ { e with quantity := e.quantity + q } :: l₂ := by
  have hfind : items.find? (fun item => item.product_id == p.id) = some e := by
    rw [hitems]
    exact find?_append_middle _ l₁ l₂ e
      (fun x hx => by simpa using h₁ x hx) (by simpa using he)
  have hq' : ¬ e.quantity + q ≤ 0 := by omega
  simp only [addItem, hfind, updateQuantity, if_neg hq']
  rw [hitems, List.map_append, List.map_cons]
  rw [map_update_id l₁ p.id _ h₁, map_update_id l₂ p.id _ h₂, if_pos he]

/- ## C3 -/

/-- C3: `addItem(product, q)` on a cart already holding a line for the
product (written as `l₁ ++ e :: l₂` with no other line for that id, and a
resulting quantity that stays positive) bumps that line's quantity by q and
changes no other field of any line; on a cart with no line for the product
it appends a single new line with the locally generated
`productId-timestamp` id, the given quantity and the product's name, price
and first media URL, leaving all existing lines unchanged. -/
theorem addItem_merges_or_appends (items : Cart) (p : Product) (q : ℤ) (now : ℕ) :
    ((∀ it ∈ items, it.product_id ≠ p.id) →
      addItem items p q now = items ++
        [{ id := p.id ++ "-" ++ toString now
           product_id := p.id
           name := p.name
           price := p.price
           quantity := q
           image_url := p.media.head?.map (fun m => m.url) }]) ∧
    (∀ (l₁ l₂ : Cart) (e : CartItem), items = l₁ ++ e :: l₂ →
      e.product_id = p.id →
      (∀ it ∈ l₁, it.product_id ≠ p.id) →
      (∀ it ∈ l₂, it.product_id ≠ p.id) →
      1 ≤ e.quantity + q →
      addItem items p q now = l₁ ++ { e with quantity := e.quantity + q } :: l₂) := by
  constructor
  · intro h
    rw [addItem_absent_eq items p q now h]
    rfl
  · intro l₁ l₂ e hitems he h₁ h₂ hq
    exact addItem_present_eq items l₁ l₂ e p q now hitems he h₁ h₂ hq

/-- Witness for C3: both branches at concrete carts — appending to a cart
holding only product "b", and merging into a cart `[b-line, a-line]`. -/
theorem addItem_merges_or_appends_witness :
    (addItem [⟨"b-0", "b", "B", 5, 1, none⟩] ⟨"a", "A", 10, []⟩ 2 7 =
      [⟨"b-0", "b", "B", 5, 1, none⟩] ++
        [{ id := "a" ++ "-" ++ toString 7
           product_id := "a"
           name := "A"
           price := 10
           quantity := 2
           image_url := (([] : List Media)).head?.map (fun m => m.url) }]) ∧
    (addItem [⟨"b-0", "b", "B", 5, 1, none⟩, ⟨"a-1", "a", "A", 10, 3, none⟩]
        ⟨"a", "A", 10, []⟩ 2 7 =
      [⟨"b-0", "b", "B", 5, 1, none⟩] ++
        { (⟨"a-1", "a", "A", 10, 3, none⟩ : CartItem) with quantity := (3 : ℤ) + 2 } :: []) := by
  constructor
  · exact (addItem_merges_or_appends [⟨"b-0", "b", "B", 5, 1, none⟩]
      ⟨"a", "A", 10, []⟩ 2 7).1 (by decide)
  · exact (addItem_merges_or_appends [⟨"b-0", "b", "B", 5, 1, none⟩, ⟨"a-1", "a", "A", 10, 3, none⟩]
      ⟨"a", "A", 10, []⟩ 2 7).2 [⟨"b-0", "b", "B", 5, 1, none⟩] [] ⟨"a-1", "a", "A", 10, 3, none⟩
      rfl rfl (by decide) (by decide) (by decide)

/- ## C10 -/

/-- One user-level cart operation of the local store. -/
inductive CartOp where
  | add (product : Product) (quantity : ℤ) (now : ℕ)
  | remove (productId : String)
  | update (productId : String) (quantity : ℤ)
  | clear
deriving Repr, DecidableEq

/-- Apply one cart operation to the local items. -/
def applyCartOp (items : Cart) : CartOp → Cart
  | .add product quantity now => addItem items product quantity now
  | .remove productId => removeItem items productId
  | .update productId quantity => updateQuantity items productId quantity
  | .clear => clearCart items

/-- Run a sequence of cart operations starting from the empty cart. -/
def runCartOps (ops : List CartOp) : Cart :=
  ops.foldl applyCartOp []

/-- At most one line per `product_id`. -/
def DistinctIds (items : Cart) : Prop :=
  items.Pairwise (fun a b => a.product_id ≠ b.product_id)

theorem removeItem_distinct (items : Cart) (productId : String)
    (h : DistinctIds items) : DistinctIds (removeItem items productId) :=
  h.sublist (List.filter_sublist items)

theorem updateQuantity_distinct (items : Cart) (productId : String) (q : ℤ)
    (h : DistinctIds items) : DistinctIds (updateQuantity items productId q) := by
  unfold updateQuantity
  split
  · exact removeItem_distinct items productId h
  · rw [DistinctIds, List.pairwise_map]
    refine h.imp_of_mem ?_
    intro a b _ _ hab
    split <;> split <;> simpa using hab

theorem addItem_distinct (items : Cart) (product : Product) (q : ℤ) (now : ℕ)
    (h : DistinctIds items) : DistinctIds (addItem items product q now) := by
  unfold addItem
  cases hfind : items.find? (fun item => item.product_id == product.id) with
  | some e => exact updateQuantity_distinct items product.id _ h
  | none =>
    have hnone : ∀ it ∈ items, it.product_id ≠ product.id := by
      intro it hit
      have := List.find?_eq_none.mp hfind it hit
      simpa using this
    rw [DistinctIds, List.pairwise_append]
    refine ⟨h, List.pairwise_singleton _ _, ?_⟩
    intro a ha b hb
    have hb' : b = newCartItem product q now := by simpa using hb
    subst hb'
    simpa [newCartItem] using hnone a ha

theorem applyCartOp_distinct (items : Cart) (op : CartOp)
    (h : DistinctIds items) : DistinctIds (applyCartOp items op) := by
  cases op with
  | add product quantity now => exact addItem_distinct items product quantity now h
  | remove productId => exact removeItem_distinct items productId h
  | update productId quantity => exact updateQuantity_distinct items productId quantity h
  | clear => exact List.Pairwise.nil

theorem foldl_applyCartOp_distinct (ops : List CartOp) (items : Cart)
    (h : DistinctIds items) : DistinctIds (ops.foldl applyCartOp items) := by
  induction ops generalizing items with
  | nil => exact h
  | cons op rest ih => exact ih _ (applyCartOp_distinct items op h)

/-- C10: starting from the empty cart, every sequence of `addItem`,
`updateQuantity`, `removeItem` and `clearCart` operations preserves the
invariant that the local cart holds at most one line per `product_id`. -/
theorem runCartOps_distinct_ids (ops : List CartOp) : DistinctIds (runCartOps ops) :=
  foldl_applyCartOp_distinct ops [] List.Pairwise.nil

/- ## More find? helpers, for the addItem-sequence invariant -/

theorem find?_append_of_some {α : Type} (pr : α → Bool) (l₁ l₂ : List α) (a : α)
    (h : l₁.find? pr = some a) : (l₁ ++ l₂).find? pr = some a := by
  rw [List.find?_append, h]
  rfl

theorem find?_append_of_none {α : Type} (pr : α → Bool) (l₁ l₂ : List α)
    (h : l₁.find? pr = none) : (l₁ ++ l₂).find? pr = l₂.find? pr := by
  rw [List.find?_append, h]
  rfl

theorem exists_find?_eq_some {α : Type} (pr : α → Bool) (l : List α) (x : α)
    (hx : x ∈ l) (hpx : pr x = true) : ∃ y, l.find? pr = some y := by
  cases h : l.find? pr with
  | some y => exact ⟨y, rfl⟩
  | none => exact absurd hpx (by simpa using List.find?_eq_none.mp h x hx)

theorem find?_eq_some_split {α : Type} (pr : α → Bool) (l : List α) (e : α)
    (h : l.find? pr = some e) :
    ∃ l₁ l₂, l = l₁ ++ e :: l₂ ∧ ∀ x ∈ l₁, pr x = false := by
  induction l with
  | nil => simp at h
  | cons x xs ih =>
    cases hx : pr x with
    | true =>
      rw [List.find?_cons_of_pos _ hx] at h
      obtain rfl : x = e := by injection h
      exact ⟨[], xs, rfl, by simp⟩
    | false =>
      rw [List.find?_cons_of_neg _ (by simp [hx])] at h
      obtain ⟨l₁, l₂, heq, hall⟩ := ih h
      exact ⟨x :: l₁, l₂, by simp [heq], by
        intro y hy
        rcases List.mem_cons.mp hy with hy | hy
        · simpa [hy] using hx
        · exact hall y hy⟩

/- ## C2: totals over a sequence of addItem calls -/

/-- One `addItem(product, quantity)` call, with the `Date.now()` value used
for the locally generated line id. -/
structure AddCall where
  product : Product
  quantity : ℤ
  now : ℕ
deriving Repr, DecidableEq

/-- Run a sequence of `addItem` calls starting from the empty cart. -/
def runAdds (calls : List AddCall) : Cart :=
  calls.foldl (fun items c => addItem items c.product c.quantity c.now) []

/-- The unit price the cart snapshots for a product id: the price carried by
the first `addItem` call for that id (0 if the id is never added). -/
def firstAddPrice (calls : List AddCall) (productId : String) : ℚ :=
  match calls.find? (fun c => c.product.id == productId) with
  | some c => c.product.price
  | none => 0

/-- Invariant tying a cart to the sequence of addItem calls that built it. -/
def AddInv (calls : List AddCall) (items : Cart) : Prop :=
  DistinctIds items ∧
  (∀ it ∈ items, ∃ c ∈ calls, c.product.id = it.product_id) ∧
  (∀ c ∈ calls, ∃ it ∈ items, it.product_id = c.product.id) ∧
  (∀ it ∈ items, 1 ≤ it.quantity) ∧
  (∀ it ∈ items, it.price = firstAddPrice calls it.product_id) ∧
  getTotalItems items = (calls.map (fun c => c.quantity)).sum ∧
  getTotalPrice items =
    (calls.map (fun c => firstAddPrice calls c.product.id * (c.quantity : ℚ))).sum

theorem firstAddPrice_append_stable (calls : List AddCall) (c : AddCall) (productId : String)
    (h : ∃ d ∈ calls, d.product.id = productId) :
    firstAddPrice (calls ++ [c]) productId = firstAddPrice calls productId := by
  obtain ⟨d, hd, hdp⟩ := h
  obtain ⟨y, hy⟩ := exists_find?_eq_some (fun d' => d'.product.id == productId) calls d hd
    (by simpa using hdp)
  unfold firstAddPrice
  rw [find?_append_of_some _ _ _ _ hy, hy]

theorem firstAddPrice_append_new (calls : List AddCall) (c : AddCall)
    (h : ∀ d ∈ calls, d.product.id ≠ c.product.id) :
    firstAddPrice (calls ++ [c]) c.product.id = c.product.price := by
  have hnone : calls.find? (fun d => d.product.id == c.product.id) = none := by
    rw [List.find?_eq_none]
    intro d hd
    simpa using h d hd
  unfold firstAddPrice
  rw [find?_append_of_none _ _ _ hnone]
  simp [List.find?_cons]

theorem addInv_runAdds (calls : List AddCall) :
    (∀ c ∈ calls, 1 ≤ c.quantity) → AddInv calls (runAdds calls) := by
  induction calls using List.reverseRecOn with
  | nil =>
    intro _
    refine ⟨List.Pairwise.nil, by simp [runAdds], by simp, by simp [runAdds], by simp [runAdds],
      by simp [runAdds, getTotalItems], by simp [runAdds, getTotalPrice]⟩
  | append_singleton calls c ih =>
    intro hq
    have hq' : ∀ d ∈ calls, 1 ≤ d.quantity := fun d hd => hq d (by simp [hd])
    have hqc : 1 ≤ c.quantity := hq c (by simp)
    obtain ⟨hdist, hids, hcov, hqty, hprice, hTI, hTP⟩ := ih hq'
    have hrun : runAdds (calls ++ [c]) = addItem (runAdds calls) c.product c.quantity c.now := by
      simp [runAdds, List.foldl_append]
    have hstab : ∀ it ∈ runAdds calls,
        firstAddPrice (calls ++ [c]) it.product_id = firstAddPrice calls it.product_id := by
      intro it hit
      exact firstAddPrice_append_stable calls c it.product_id (hids it hit)
    cases hfind : (runAdds calls).find? (fun item => item.product_id == c.product.id) with
    | none =>
      have hnone : ∀ it ∈ runAdds calls, it.product_id ≠ c.product.id := by
        intro it hit
        simpa using List.find?_eq_none.mp hfind it hit
      have hnocall : ∀ d ∈ calls, d.product.id ≠ c.product.id := by
        intro d hd hdc
        obtain ⟨it, hit, hitid⟩ := hcov d hd
        exact hnone it hit (hitid.trans hdc)
      have hnewprice : firstAddPrice (calls ++ [c]) c.product.id = c.product.price :=
        firstAddPrice_append_new calls c hnocall
      have heq : runAdds (calls ++ [c]) =
          runAdds calls ++ [newCartItem c.product c.quantity c.now] := by
        rw [hrun]
        exact addItem_absent_eq _ _ _ _ hnone
      rw [heq]
      refine ⟨?_, ?_, ?_, ?_, ?_, ?_, ?_⟩
      · rw [DistinctIds, List.pairwise_append]
        refine ⟨hdist, List.pairwise_singleton _ _, ?_⟩
        intro a ha b hb
        have hb' : b = newCartItem c.product c.quantity c.now := by simpa using hb
        subst hb'
        simpa [newCartItem] using hnone a ha
      · intro it hit
        rcases List.mem_append.mp hit with hit | hit
        · obtain ⟨d, hd, hdp⟩ := hids it hit
          exact ⟨d, by simp [hd], hdp⟩
        · have hit' : it = newCartItem c.product c.quantity c.now := by simpa using hit
          exact ⟨c, by simp, by simp [hit', newCartItem]⟩
      · intro d hd
        rcases List.mem_append.mp hd with hd | hd
        · obtain ⟨it, hit, hitid⟩ := hcov d hd
          exact ⟨it, by simp [hit], hitid⟩
        · have hd' : d = c := by simpa using hd
          rw [hd']
          exact ⟨newCartItem c.product c.quantity c.now, by simp, by simp [newCartItem]⟩
      · intro it hit
        rcases List.mem_append.mp hit with hit | hit
        · exact hqty it hit
        · have hit' : it = newCartItem c.product c.quantity c.now := by simpa using hit
          simpa [hit', newCartItem] using hqc
      · intro it hit
        rcases List.mem_append.mp hit with hit | hit
        · rw [hstab it hit]
          exact hprice it hit
        · have hit' : it = newCartItem c.product c.quantity c.now := by simpa using hit
          subst hit'
          simpa [newCartItem] using hnewprice.symm
      · rw [getTotalItems_eq_sum, List.map_append, List.sum_append]
        have hTI' : ((runAdds calls).map (fun it => it.quantity)).sum =
            (calls.map (fun c => c.quantity)).sum := by
          rw [← getTotalItems_eq_sum, hTI]
        rw [hTI', List.map_append, List.sum_append]
        simp [newCartItem]
      · rw [getTotalPrice_eq_sum, List.map_append, List.sum_append]
        have hTP' : ((runAdds calls).map (fun it => it.price * (it.quantity : ℚ))).sum =
            (calls.map (fun c => firstAddPrice calls c.product.id * (c.quantity : ℚ))).sum := by
          rw [← getTotalPrice_eq_sum, hTP]
        rw [hTP', List.map_append, List.sum_append]
        have hcongr : calls.map (fun d => firstAddPrice (calls ++ [c]) d.product.id * (d.quantity : ℚ)) =
            calls.map (fun d => firstAddPrice calls d.product.id * (d.quantity : ℚ)) := by
          refine List.map_congr_left ?_
          intro d hd
          rw [firstAddPrice_append_stable calls c d.product.id ⟨d, hd, rfl⟩]
        rw [hcongr]
        simp [newCartItem, hnewprice]
    | some e =>
      have he_mem : e ∈ runAdds calls := List.mem_of_find?_eq_some hfind
      have he_pid : e.product_id = c.product.id := by simpa using List.find?_some hfind
      have he_qty : 1 ≤ e.quantity := hqty e he_mem
      obtain ⟨l₁, l₂, hsplit, hl₁f⟩ := find?_eq_some_split _ _ _ hfind
      have hl₁ : ∀ it ∈ l₁, it.product_id ≠ c.product.id := by
        intro it hit
        simpa using hl₁f it hit
      have hl₂ : ∀ it ∈ l₂, it.product_id ≠ c.product.id := by
        have hd := hdist
        rw [DistinctIds, hsplit, List.pairwise_append] at hd
        intro it hit hc
        have : e.product_id ≠ it.product_id := (List.pairwise_cons.mp hd.2.1).1 it hit
        exact this (he_pid.trans hc.symm)
      have heq : runAdds (calls ++ [c]) =
          l₁ ++ { e with quantity := e.quantity + c.quantity } :: l₂ := by
        rw [hrun]
        exact addItem_present_eq _ l₁ l₂ e _ _ _ hsplit he_pid hl₁ hl₂ (by omega)
      have hEprice : e.price = firstAddPrice calls c.product.id := by
        rw [← he_pid]
        exact hprice e he_mem
      have hcpid : ∃ d ∈ calls, d.product.id = c.product.id := by
        obtain ⟨d, hd, hdp⟩ := hids e he_mem
        exact ⟨d, hd, hdp.trans he_pid⟩
      rw [heq]
      have hmem_old : ∀ it : CartItem, it ∈ l₁ ∨ it ∈ l₂ → it ∈ runAdds calls := by
        intro it hit
        rw [hsplit]
        rcases hit with hit | hit
        · exact List.mem_append.mpr (Or.inl hit)
        · exact List.mem_append.mpr (Or.inr (List.mem_cons_of_mem _ hit))
      refine ⟨?_, ?_, ?_, ?_, ?_, ?_, ?_⟩
      · have hd := hdist
        rw [DistinctIds, hsplit, List.pairwise_append, List.pairwise_cons] at hd
        rw [DistinctIds, List.pairwise_append, List.pairwise_cons]
        obtain ⟨hpw1, ⟨hel2, hpw2⟩, hcross⟩ := hd
        refine ⟨hpw1, ⟨fun b hb => hel2 b hb, hpw2⟩, ?_⟩
        intro a ha b hb
        rcases List.mem_cons.mp hb with hb | hb
        · subst hb
          exact hcross a ha e (List.mem_cons_self _ _)
        · exact hcross a ha b (List.mem_cons_of_mem _ hb)
      · intro it hit
        rcases List.mem_append.mp hit with hit | hit
        · obtain ⟨d, hd, hdp⟩ := hids it (hmem_old it (Or.inl hit))
          exact ⟨d, by simp [hd], hdp⟩
        · rcases List.mem_cons.mp hit with hit | hit
          · subst hit
            obtain ⟨d, hd, hdp⟩ := hids e he_mem
            exact ⟨d, by simp [hd], hdp⟩
          · obtain ⟨d, hd, hdp⟩ := hids it (hmem_old it (Or.inr hit))
            exact ⟨d, by simp [hd], hdp⟩
      · intro d hd
        rcases List.mem_append.mp hd with hd | hd
        · obtain ⟨it, hit, hitid⟩ := hcov d hd
          have hit' : it ∈ l₁ ++ e :: l₂ := by rw [← hsplit]; exact hit
          rcases List.mem_append.mp hit' with h1 | h2
          · exact ⟨it, List.mem_append.mpr (Or.inl h1), hitid⟩
          · rcases List.mem_cons.mp h2 with heq' | h2
            · refine ⟨{ e with quantity := e.quantity + c.quantity },
                List.mem_append.mpr (Or.inr (List.mem_cons_self _ _)), ?_⟩
              show e.product_id = d.product.id
              rw [← heq']
              exact hitid
            · exact ⟨it, List.mem_append.mpr (Or.inr (List.mem_cons_of_mem _ h2)), hitid⟩
        · have hd' : d = c := by simpa using hd
          rw [hd']
          exact ⟨{ e with quantity := e.quantity + c.quantity },
            List.mem_append.mpr (Or.inr (List.mem_cons_self _ _)), he_pid⟩
      · intro it hit
        rcases List.mem_append.mp hit with hit | hit
        · exact hqty it (hmem_old it (Or.inl hit))
        · rcases List.mem_cons.mp hit with hit | hit
          · subst hit
            show (1 : ℤ) ≤ e.quantity + c.quantity
            omega
          · exact hqty it (hmem_old it (Or.inr hit))
      · intro it hit
        rcases List.mem_append.mp hit with hit | hit
        · have hmem := hmem_old it (Or.inl hit)
          rw [hstab it hmem]
          exact hprice it hmem
        · rcases List.mem_cons.mp hit with hit | hit
          · subst hit
            show e.price = firstAddPrice (calls ++ [c]) e.product_id
            rw [hstab e he_mem]
            exact hprice e he_mem
          · have hmem := hmem_old it (Or.inr hit)
            rw [hstab it hmem]
            exact hprice it hmem
      · have hTIold := hTI
        rw [hsplit, getTotalItems_eq_sum] at hTIold
        rw [getTotalItems_eq_sum]
        simp only [List.map_append, List.sum_append, List.map_cons, List.sum_cons,
          List.map_nil, List.sum_nil] at hTIold ⊢
        omega
      · have hTPold := hTP
        rw [hsplit, getTotalPrice_eq_sum] at hTPold
        rw [getTotalPrice_eq_sum]
        have hcongr : calls.map
              (fun d => firstAddPrice (calls ++ [c]) d.product.id * (d.quantity : ℚ)) =
            calls.map (fun d => firstAddPrice calls d.product.id * (d.quantity : ℚ)) := by
          refine List.map_congr_left ?_
          intro d hd
          rw [firstAddPrice_append_stable calls c d.product.id ⟨d, hd, rfl⟩]
        have hcstable : firstAddPrice (calls ++ [c]) c.product.id =
            firstAddPrice calls c.product.id :=
          firstAddPrice_append_stable calls c c.product.id hcpid
        simp only [List.map_append, List.sum_append, List.map_cons, List.sum_cons,
          List.map_nil, List.sum_nil] at hTPold ⊢
        rw [hcongr, hcstable, ← hEprice]
        push_cast at hTPold ⊢
        linear_combination hTPold

/-- C2: over any sequence of `addItem` calls (each with quantity ≥ 1)
starting from the empty cart, `getTotalItems()` is the sum of the
quantities added; every cart line's unit price is the price snapshotted at
that product's first add (later calls never rewrite it); and
`getTotalPrice()` is the sum over the calls of that snapshotted first-add
price times the call's quantity. -/
theorem addItem_sequence_totals (calls : List AddCall)
    (hq : ∀ c ∈ calls, 1 ≤ c.quantity) :
    getTotalItems (runAdds calls) = (calls.map (fun c => c.quantity)).sum ∧
    (∀ it ∈ runAdds calls, it.price = firstAddPrice calls it.product_id) ∧
    getTotalPrice (runAdds calls) =
      (calls.map (fun c => firstAddPrice calls c.product.id * (c.quantity : ℚ))).sum := by
  obtain ⟨_, _, _, _, hprice, hTI, hTP⟩ := addInv_runAdds calls hq
  exact ⟨hTI, hprice, hTP⟩

/-- The spec's example sequence: 2 units of product A at 10.00, then 1 unit
of product B at 5.00. -/
def exampleAdds : List AddCall :=
  [⟨⟨"A", "Product A", 10, []⟩, 2, 0⟩, ⟨⟨"B", "Product B", 5, []⟩, 1, 1⟩]

/-- Witness for C2: the example gives 3 items totalling 25.00. -/
theorem addItem_sequence_totals_witness :
    getTotalItems (runAdds exampleAdds) = 3 ∧ getTotalPrice (runAdds exampleAdds) = 25 := by
  have h := addItem_sequence_totals exampleAdds (by decide)
  refine ⟨?_, ?_⟩
  · rw [h.1]
    decide
  · rw [h.2.2]
    norm_num [exampleAdds, firstAddPrice, List.find?_cons,
      show (("A" : String) == "B") = false from rfl]

/- ## C7: resize dimension computation (imageUtils resizeImage) -/

/-- The dimension calculation inside `resizeImage` (imageUtils): landscape
images wider than `maxWidth` are scaled to width `maxWidth`; otherwise,
images taller than `maxHeight` are scaled to height `maxHeight`; anything
else keeps its dimensions. Returns (width, height). -/
def resizeDimensions (w h maxWidth maxHeight : ℚ) : ℚ × ℚ :=
  if h < w then
    if maxWidth < w then (maxWidth, h * maxWidth / w) else (w, h)
  else
    if maxHeight < h then (w * maxHeight / h, maxHeight) else (w, h)

/-- C7: for positive input dimensions, `resizeImage` with the 1200×1200
bounding box produces output dimensions whose max is ≤ 1200 and whose
aspect ratio equals the input's, and an image already inside the box keeps
its dimensions. -/
theorem resizeDimensions_bounds (w h : ℚ) (hw : 0 < w) (hh : 0 < h) :
    max (resizeDimensions w h 1200 1200).1 (resizeDimensions w h 1200 1200).2 ≤ 1200 ∧
    (resizeDimensions w h 1200 1200).1 / (resizeDimensions w h 1200 1200).2 = w / h ∧
    (w ≤ 1200 → h ≤ 1200 → resizeDimensions w h 1200 1200 = (w, h)) := by
  unfold resizeDimensions
  split_ifs with h1 h2 h3
  · refine ⟨?_, ?_, ?_⟩
    · have hdiv : h * 1200 / w ≤ 1200 := by
        rw [div_le_iff₀ hw]
        nlinarith
      simpa [max_le_iff] using hdiv
    · have hne : h * 1200 / w ≠ 0 := by positivity
      field_simp
      ring
    · intro hwle _
      exact absurd h2 (by linarith)
  · refine ⟨?_, rfl, fun _ _ => rfl⟩
    have hwle : w ≤ 1200 := le_of_not_lt h2
    simp only [max_le_iff]
    exact ⟨hwle, by linarith⟩
  · refine ⟨?_, ?_, ?_⟩
    · have hwh : w ≤ h := le_of_not_lt h1
      have hdiv : w * 1200 / h ≤ 1200 := by
        rw [div_le_iff₀ hh]
        nlinarith
      simpa [max_le_iff] using hdiv
    · field_simp
      ring
    · intro _ hhle
      exact absurd h3 (by linarith)
  · refine ⟨?_, rfl, fun _ _ => rfl⟩
    have hhle : h ≤ 1200 := le_of_not_lt h3
    have hwh : w ≤ h := le_of_not_lt h1
    simp only [max_le_iff]
    exact ⟨by linarith, hhle⟩

/-- Witness for C7 at a 1300×50 input: bounded, aspect preserved, and the
no-op clause instantiated vacuously. -/
theorem resizeDimensions_bounds_witness :
    max (resizeDimensions 1300 50 1200 1200).1 (resizeDimensions 1300 50 1200 1200).2 ≤ 1200 ∧
    (resizeDimensions 1300 50 1200 1200).1 / (resizeDimensions 1300 50 1200 1200).2 = 1300 / 50 ∧
    ((1300 : ℚ) ≤ 1200 → (50 : ℚ) ≤ 1200 → resizeDimensions 1300 50 1200 1200 = (1300, 50)) :=
  resizeDimensions_bounds 1300 50 (by norm_num) (by norm_num)

/- ## C9: checkAdminStatus (authStore.ts) -/

/-- The `is_admin` column of a `user_profiles` row: a nullable boolean
(`boolean DEFAULT false`, no NOT NULL). -/
structure ProfileRow where
  is_admin : Option Bool
deriving Repr, DecidableEq

/-- Outcome of the `user_profiles` `maybeSingle()` query in
`checkAdminStatus`: an error, or a possibly-absent row. -/
inductive ProfileQueryResult where
  | failure
  | success (row : Option ProfileRow)
deriving Repr, DecidableEq

/-- `checkAdminStatus` from `authStore.ts`, as the new `isAdmin` flag it
stores: no signed-in user leaves the flag unchanged; a query error stores
false; otherwise `data?.is_admin || false`. All error paths are caught, so
the function is total. -/
def checkAdminStatus (user : Option String) (query : ProfileQueryResult)
    (isAdmin : Bool) : Bool :=
  match user with
  | none => isAdmin
  | some _ =>
    match query with
    | .failure => false
    | .success data => (data.bind (fun row => row.is_admin)).getD false

/-- C9: for every signed-in user, `checkAdminStatus` resolves to
`isAdmin = false` both when the profile row is absent and when the query
errors, and resolves to true exactly when an existing row has
`is_admin = true`. -/
theorem checkAdminStatus_fails_closed (u : String) (st : Bool) :
    checkAdminStatus (some u) .failure st = false ∧
    checkAdminStatus (some u) (.success none) st = false ∧
    (∀ row : ProfileRow,
      checkAdminStatus (some u) (.success (some row)) st = true ↔
        row.is_admin = some true) := by
  refine ⟨rfl, rfl, ?_⟩
  intro row
  cases h : row.is_admin with
  | none => simp [checkAdminStatus, h]
  | some b => cases b <;> simp [checkAdminStatus, h]

/- ## C8: uploadProductImage validation gate -/

/-- `IMAGE_CONFIG.MAX_FILE_SIZE`: 5MB. -/
def MAX_FILE_SIZE : ℕ := 5 * 1024 * 1024

/-- `IMAGE_CONFIG.ALLOWED_TYPES`. -/
def ALLOWED_TYPES : List String := ["image/jpeg", "image/png", "image/webp"]

/-- The file metadata the validators read: name, byte size, MIME type. -/
structure FileMeta where
  name : String
  size : ℕ
  type : String
deriving Repr, DecidableEq

/-- `validateFileUpload` from `debugUtils.ts` with default options (size
checked first, then type); `some err` models `{valid:false, error}`. -/
def validateFileUpload (file : FileMeta) : Option String :=
  if MAX_FILE_SIZE < file.size then
    some "File size exceeds 5MB limit"
  else if ¬ file.type ∈ ALLOWED_TYPES then
    some "File type not allowed"
  else
    none

/-- `validateImageFile` from `imageUtils.ts` (type checked first, then
size); `some err` models `{isValid:false, error}`. -/
def validateImageFile (file : FileMeta) : Option String :=
  if ¬ file.type ∈ ALLOWED_TYPES then
    some "Invalid file type. Allowed types: image/jpeg, image/png, image/webp"
  else if MAX_FILE_SIZE < file.size then
    some "File too large. Maximum size: 5MB"
  else
    none

/-- Side effects of the upload pipeline we track: the canvas resize and the
storage upload request. -/
inductive UploadEffect where
  | resize
  | storageUpload
deriving Repr, DecidableEq

/-- `UploadResult` from `supabaseStorage.ts`. -/
structure UploadResult where
  url : String
  path : String
  error : Option String
deriving Repr, DecidableEq

/-- Result of one `uploadProductImage` call plus the effects it performed
and the storage objects it created. -/
structure UploadOutcome where
  result : UploadResult
  effects : List UploadEffect
  createdObjects : List String
deriving Repr, DecidableEq

/-- `IMAGE_CONFIG.STORAGE_BUCKET`. -/
def STORAGE_BUCKET : String := "product-images"

/-- Abstract model of `getPublicUrl` for a storage path. -/
def publicUrl (path : String) : String :=
  STORAGE_BUCKET ++ "/" ++ path

/-- `uploadProductImage` from `supabaseStorage.ts`: run `validateFileUpload`
then `validateImageFile`, returning an error result (with no resize, no
upload, no object) if either fails; otherwise resize, build the
`products/productId-index-now.jpg` path and upload, the storage response
being the `storageError` parameter. -/
def uploadProductImage (file : FileMeta) (productId : String) (index : ℕ) (now : ℕ)
    (storageError : Option String) : UploadOutcome :=
  match validateFileUpload file with
  | some e => ⟨⟨"", "", some ("File validation failed: " ++ e)⟩, [], []⟩
  | none =>
    match validateImageFile file with
    | some e => ⟨⟨"", "", some e⟩, [], []⟩
    | none =>
      let filePath := "products/" ++ productId ++ "-" ++ toString index ++ "-" ++
        toString now ++ ".jpg"
      match storageError with
      | some msg => ⟨⟨"", "", some msg⟩, [.resize, .storageUpload], []⟩
      | none => ⟨⟨publicUrl filePath, filePath, none⟩, [.resize, .storageUpload], [filePath]⟩

/-- C8: a file whose MIME type is not allowed or whose size exceeds 5MB is
rejected with an error result before any resize or upload and creates no
storage object; a file of an allowed type with size ≤ 5MB passes both
validators. -/
theorem uploadProductImage_validates (file : FileMeta) (productId : String)
    (index now : ℕ) (storageError : Option String) :
    ((¬ file.type ∈ ALLOWED_TYPES ∨ MAX_FILE_SIZE < file.size) →
      (uploadProductImage file productId index now storageError).result.error.isSome = true ∧
      (uploadProductImage file productId index now storageError).effects = [] ∧
      (uploadProductImage file productId index now storageError).createdObjects = []) ∧
    (file.type ∈ ALLOWED_TYPES → file.size ≤ MAX_FILE_SIZE →
      validateFileUpload file = none ∧ validateImageFile file = none) := by
  constructor
  · intro h
    have hsome : ∃ e, validateFileUpload file = some e := by
      unfold validateFileUpload
      by_cases hs : MAX_FILE_SIZE < file.size
      · exact ⟨_, by rw [if_pos hs]⟩
      · rcases h with h | h
        · exact ⟨_, by rw [if_neg hs, if_pos h]⟩
        · exact absurd h hs
    obtain ⟨e, he⟩ := hsome
    simp [uploadProductImage, he]
  · intro hmem hsize
    have hs : ¬ MAX_FILE_SIZE < file.size := not_lt.mpr hsize
    constructor
    · simp [validateFileUpload, hs, hmem]
    · simp [validateImageFile, hs, hmem]

/-- Witness for C8: a 6MB PNG is rejected with no effects and no created
object; a small JPEG passes both validators. -/
theorem uploadProductImage_validates_witness :
    ((uploadProductImage ⟨"big.png", 6 * 1024 * 1024, "image/png"⟩ "p" 0 0 none).result.error.isSome = true ∧
      (uploadProductImage ⟨"big.png", 6 * 1024 * 1024, "image/png"⟩ "p" 0 0 none).effects = [] ∧
      (uploadProductImage ⟨"big.png", 6 * 1024 * 1024, "image/png"⟩ "p" 0 0 none).createdObjects = []) ∧
    (validateFileUpload ⟨"ok.jpg", 1024, "image/jpeg"⟩ = none ∧
      validateImageFile ⟨"ok.jpg", 1024, "image/jpeg"⟩ = none) := by
  constructor
  · exact (uploadProductImage_validates ⟨"big.png", 6 * 1024 * 1024, "image/png"⟩
      "p" 0 0 none).1 (by decide)
  · exact (uploadProductImage_validates ⟨"ok.jpg", 1024, "image/jpeg"⟩
      "p" 0 0 none).2 (by decide) (by decide)

/- ## C6: imageCache (imageUtils.ts) -/

/-- JavaScript `Map.set` on an insertion-ordered association list: an
existing key is updated in place, a new key is appended. -/
def mapSet (m : List (String × String)) (k v : String) : List (String × String) :=
  if m.any (fun e => e.1 == k) then
    m.map (fun e => if e.1 = k then (k, v) else e)
  else
    m ++ [(k, v)]

/-- JavaScript `Map.delete`. -/
def mapDelete (m : List (String × String)) (k : String) : List (String × String) :=
  m.filter (fun e => e.1 != k)

/-- `imageCache.get`. -/
def cacheGet (m : List (String × String)) (k : String) : Option String :=
  (m.find? (fun e => e.1 == k)).map (fun e => e.2)

/-- `imageCache.set` from `imageUtils.ts`: when the map holds more than 100
entries, delete the first (oldest inserted) key, then set. -/
def cacheSet (m : List (String × String)) (k v : String) : List (String × String) :=
  mapSet
    (if 100 < m.length then
      match m.head? with
      | some e => mapDelete m e.1
      | none => m
    else m) k v

/-- One `imageCache` operation. -/
inductive CacheOp where
  | set (key value : String)
  | get (key : String)
  | clear
deriving Repr, DecidableEq

/-- Apply one cache operation (`get` does not change the state). -/
def applyCacheOp (m : List (String × String)) : CacheOp → List (String × String)
  | .set k v => cacheSet m k v
  | .get _ => m
  | .clear => []

/-- Run a sequence of cache operations from the empty cache. -/
def runCache (ops : List CacheOp) : List (String × String) :=
  ops.foldl applyCacheOp []

/-- The real bound of the cache (101, not 100) together with key
uniqueness. -/
def CacheInv (m : List (String × String)) : Prop :=
  m.length ≤ 101 ∧ m.Pairwise (fun a b => a.1 ≠ b.1)

theorem mapSet_length (m : List (String × String)) (k v : String) :
    (mapSet m k v).length ≤ m.length + 1 := by
  unfold mapSet
  split
  · simp
  · simp

theorem mapSet_pairwise (m : List (String × String)) (k v : String)
    (h : m.Pairwise (fun a b => a.1 ≠ b.1)) :
    (mapSet m k v).Pairwise (fun a b => a.1 ≠ b.1) := by
  unfold mapSet
  split
  · rw [List.pairwise_map]
    refine h.imp_of_mem ?_
    intro a b _ _ hab
    split <;> split <;> simp_all
  · rename_i hany
    rw [List.pairwise_append]
    refine ⟨h, List.pairwise_singleton _ _, ?_⟩
    intro a ha b hb
    have hb' : b = (k, v) := by simpa using hb
    subst hb'
    show a.1 ≠ k
    intro hak
    exact hany (List.any_eq_true.mpr ⟨a, ha, by simp [hak]⟩)

theorem mapDelete_head (e : String × String) (t : List (String × String))
    (h : (e :: t).Pairwise (fun a b => a.1 ≠ b.1)) :
    mapDelete (e :: t) e.1 = t := by
  unfold mapDelete
  rw [List.filter_cons]
  rw [if_neg (by simp)]
  apply List.filter_eq_self.mpr
  intro x hx
  have := (List.pairwise_cons.mp h).1 x hx
  simpa using Ne.symm this

theorem cacheSet_inv (m : List (String × String)) (k v : String)
    (h : CacheInv m) : CacheInv (cacheSet m k v) := by
  obtain ⟨hlen, hpw⟩ := h
  unfold cacheSet
  split
  · rename_i hbig
    cases m with
    | nil => simp at hbig
    | cons e t =>
      simp only [List.head?_cons]
      rw [mapDelete_head e t hpw]
      have ht : t.length ≤ 100 := by
        simp only [List.length_cons] at hlen
        omega
      have htp : t.Pairwise (fun a b => a.1 ≠ b.1) := (List.pairwise_cons.mp hpw).2
      exact ⟨le_trans (mapSet_length t k v) (by omega), mapSet_pairwise t k v htp⟩
  · rename_i hsmall
    have : m.length ≤ 100 := by omega
    exact ⟨le_trans (mapSet_length m k v) (by omega), mapSet_pairwise m k v hpw⟩

theorem applyCacheOp_inv (m : List (String × String)) (op : CacheOp)
    (h : CacheInv m) : CacheInv (applyCacheOp m op) := by
  cases op with
  | set k v => exact cacheSet_inv m k v h
  | get _ => exact h
  | clear => exact ⟨by simp [applyCacheOp], List.Pairwise.nil⟩

theorem foldl_applyCacheOp_inv (ops : List CacheOp) (m : List (String × String))
    (h : CacheInv m) : CacheInv (ops.foldl applyCacheOp m) := by
  induction ops generalizing m with
  | nil => exact h
  | cons op rest ih => exact ih _ (applyCacheOp_inv m op h)

theorem runCache_inv (ops : List CacheOp) : CacheInv (runCache ops) :=
  foldl_applyCacheOp_inv ops [] ⟨by simp, List.Pairwise.nil⟩

/-- 101 sets of distinct keys, enough to overfill the cache. -/
def overflowOps : List CacheOp :=
  (List.range 101).map (fun i => CacheOp.set (String.singleton (Char.ofNat (65 + i))) "v")

set_option maxRecDepth 40000 in
/-- Counterexample for C6 as stated: after 101 `set` calls with distinct
keys the cache holds 101 entries, so it is not capped at 100 (`size > 100`
is checked before the insert, letting the map reach 101). -/
theorem imageCache_exceeds_100 :
    (runCache overflowOps).length = 101 ∧ ¬ (runCache overflowOps).length ≤ 100 := by
  decide

/-- C6 (amended): the cache never holds more than 101 entries, and a `set`
issued while it holds more than 100 entries first evicts the oldest
inserted entry (FIFO order: the head of the insertion-ordered map). -/
theorem runCache_capped_at_101 (ops : List CacheOp) :
    (runCache ops).length ≤ 101 ∧
    (∀ k v, 100 < (runCache ops).length →
      runCache (ops ++ [CacheOp.set k v]) = mapSet ((runCache ops).tail) k v) := by
  have hinv := runCache_inv ops
  refine ⟨hinv.1, ?_⟩
  intro k v hlen
  have happ : runCache (ops ++ [CacheOp.set k v]) = cacheSet (runCache ops) k v := by
    simp [runCache, List.foldl_append, applyCacheOp]
  rw [happ]
  obtain ⟨e, t, hm⟩ : ∃ e t, runCache ops = e :: t := by
    cases hmm : runCache ops with
    | nil => rw [hmm] at hlen; simp at hlen
    | cons e t => exact ⟨e, t, rfl⟩
  have hpw := hinv.2
  rw [hm] at hlen hpw ⊢
  unfold cacheSet
  rw [if_pos hlen]
  simp only [List.head?_cons]
  rw [mapDelete_head e t hpw]
  rfl

set_option maxRecDepth 40000 in
/-- Witness for the amended C6 at the overfilled cache: the 102nd set
evicts the head. -/
theorem runCache_capped_at_101_witness :
    (runCache overflowOps).length ≤ 101 ∧
    runCache (overflowOps ++ [CacheOp.set "x" "v"]) =
      mapSet ((runCache overflowOps).tail) "x" "v" :=
  ⟨(runCache_capped_at_101 overflowOps).1,
    (runCache_capped_at_101 overflowOps).2 "x" "v" (by decide)⟩

/- ## C1: update_product_analytics (SQL migration 20250630011921) -/

/-- A `product_analytics` row: the six daily counters plus `revenue`. -/
structure AnalyticsRow where
  views : ℤ
  likes : ℤ
  saves : ℤ
  shares : ℤ
  cart_adds : ℤ
  purchases : ℤ
  revenue : ℚ
deriving Repr, DecidableEq

/-- The `product_analytics` table keyed by (`product_id`, `date`); the
`UNIQUE(product_id, date)` constraint makes it a partial map. -/
def Analytics : Type := String → String → Option AnalyticsRow

/-- The six metric names accepted by `update_product_analytics`. -/
def metricNames : List String :=
  ["views", "likes", "saves", "shares", "cart_adds", "purchases"]

/-- One SQL `CASE WHEN p_metric = '...' THEN p_increment ELSE 0 END`. -/
def metricCase (p_metric target : String) (p_increment : ℤ) : ℤ :=
  if p_metric = target then p_increment else 0

/-- The VALUES row of the INSERT branch: the named metric gets the
increment, every other counter 0, `revenue` its default 0. -/
def insertedRow (p_metric : String) (p_increment : ℤ) : AnalyticsRow :=
  { views := metricCase p_metric "views" p_increment
    likes := metricCase p_metric "likes" p_increment
    saves := metricCase p_metric "saves" p_increment
    shares := metricCase p_metric "shares" p_increment
    cart_adds := metricCase p_metric "cart_adds" p_increment
    purchases := metricCase p_metric "purchases" p_increment
    revenue := 0 }

/-- The DO UPDATE SET branch: each counter gets its own CASE added;
`revenue` is not listed, hence unchanged. -/
def bumpedRow (r : AnalyticsRow) (p_metric : String) (p_increment : ℤ) : AnalyticsRow :=
  { views := r.views + metricCase p_metric "views" p_increment
    likes := r.likes + metricCase p_metric "likes" p_increment
    saves := r.saves + metricCase p_metric "saves" p_increment
    shares := r.shares + metricCase p_metric "shares" p_increment
    cart_adds := r.cart_adds + metricCase p_metric "cart_adds" p_increment
    purchases := r.purchases + metricCase p_metric "purchases" p_increment
    revenue := r.revenue }

/-- `update_product_analytics(p_product_id, p_metric, p_increment)`: an
upsert on the (`product_id`, `CURRENT_DATE`) key (`today` passed
explicitly), inserting the VALUES row on no conflict and adding the CASEs
on conflict. -/
def update_product_analytics (t : Analytics) (p_product_id today p_metric : String)
    (p_increment : ℤ) : Analytics :=
  fun p d =>
    if p = p_product_id ∧ d = today then
      match t p_product_id today with
      | none => some (insertedRow p_metric p_increment)
      | some r => some (bumpedRow r p_metric p_increment)
    else
      t p d

/-- The six counter columns with their readers, for quantifying over
"column m" versus "the other five". -/
def analyticsCols : List (String × (AnalyticsRow → ℤ)) :=
  [("views", fun r => r.views), ("likes", fun r => r.likes),
   ("saves", fun r => r.saves), ("shares", fun r => r.shares),
   ("cart_adds", fun r => r.cart_adds), ("purchases", fun r => r.purchases)]

theorem metricCase_comm (m target : String) (k : ℤ) :
    metricCase m target k = if target = m then k else 0 := by
  unfold metricCase
  by_cases h : m = target
  · simp [h]
  · rw [if_neg h, if_neg (fun hh => h hh.symm)]

/-- C1: with m among the six metric names, `update_product_analytics`
either inserts a row for (p, today) whose column m is k and whose other
five counters (and revenue) are zero, or adds k to column m of the existing
row leaving the other five counters (and revenue) unchanged; rows of every
other (product, date) key are untouched. -/
theorem update_product_analytics_upserts (t : Analytics) (pid today m : String) (k : ℤ)
    (_hm : m ∈ metricNames) :
    (t pid today = none →
      update_product_analytics t pid today m k pid today = some (insertedRow m k) ∧
      (∀ c ∈ analyticsCols, c.2 (insertedRow m k) = if c.1 = m then k else 0) ∧
      (insertedRow m k).revenue = 0) ∧
    (∀ r, t pid today = some r →
      update_product_analytics t pid today m k pid today = some (bumpedRow r m k) ∧
      (∀ c ∈ analyticsCols, c.2 (bumpedRow r m k) = c.2 r + if c.1 = m then k else 0) ∧
      (bumpedRow r m k).revenue = r.revenue) ∧
    (∀ p d, ¬ (p = pid ∧ d = today) →
      update_product_analytics t pid today m k p d = t p d) := by
  refine ⟨?_, ?_, ?_⟩
  · intro hnone
    refine ⟨by simp [update_product_analytics, hnone], ?_, rfl⟩
    intro c hc
    fin_cases hc <;> simp [insertedRow, metricCase_comm]
  · intro r hsome
    refine ⟨by simp [update_product_analytics, hsome], ?_, rfl⟩
    intro c hc
    fin_cases hc <;> simp [bumpedRow, metricCase_comm]
  · intro p d hpd
    simp [update_product_analytics, hpd]

/-- The empty analytics table. -/
def emptyAnalytics : Analytics := fun _ _ => none

/-- Witness for C1: inserting `views` with increment 1 into the empty
table, and the spec's example — two `views` increments on the same day
yield views = 2 with every other counter (and revenue) still 0. -/
theorem update_product_analytics_upserts_witness :
    ("views" ∈ metricNames) ∧
    (update_product_analytics emptyAnalytics "p" "d" "views" 1 "p" "d" =
      some (insertedRow "views" 1) ∧
      (∀ c ∈ analyticsCols, c.2 (insertedRow "views" 1) = if c.1 = "views" then 1 else 0) ∧
      (insertedRow "views" 1).revenue = 0) ∧
    (update_product_analytics (update_product_analytics emptyAnalytics "p" "d" "views" 1)
        "p" "d" "views" 1 "p" "d" = some ⟨2, 0, 0, 0, 0, 0, 0⟩) := by
  refine ⟨by decide, ?_, ?_⟩
  · exact (update_product_analytics_upserts emptyAnalytics "p" "d" "views" 1 (by decide)).1 rfl
  · decide
